import Mathlib

/-!
Verification development for the TvBin signal/backtest engine.

The Python source is embedded shallowly over `ℚ` (pandas floats become exact
rationals, DataFrame columns become lists, and optional columns become
`Option`).  Each definition mirrors one function of the repository:

* `calculate_ema`, `calculate_zlma`, `calculate_signals`, `add_indicators`,
  `get_all_signals` — `indicator_calculator/indicators.py`
* `simStep`, `simRun`, `forceClose`, `simulate_trading`,
  `calculate_max_drawdown` — `backtest/backtester.py`
* `save_signal` — `signal_detector/detector.py`
-/

namespace TvBin

/-- One smoothing step of `Series.ewm(span=period, adjust=False).mean()`:
given the previous average, emit `α·x + (1-α)·prev` for each element. -/
def emaAux (α : ℚ) (prev : ℚ) : List ℚ → List ℚ
  | [] => []
  | x :: xs =>
    let y := α * x + (1 - α) * prev
    y :: emaAux α y xs

/-- Embedding of `IndicatorCalculator.calculate_ema`:
`series.ewm(span=period, adjust=False).mean()`, i.e. exponential smoothing with
`α = 2/(period+1)`, seeded from the first observation. -/
def calculate_ema (series : List ℚ) (period : ℕ) : List ℚ :=
  match series with
  | [] => []
  | x :: xs => x :: emaAux (2 / ((period : ℚ) + 1)) x xs

theorem emaAux_length (α prev : ℚ) (xs : List ℚ) :
    (emaAux α prev xs).length = xs.length := by
  induction xs generalizing prev with
  | nil => rfl
  | cons x xs ih => simp [emaAux, ih]

theorem calculate_ema_length (series : List ℚ) (period : ℕ) :
    (calculate_ema series period).length = series.length := by
  cases series with
  | nil => rfl
  | cons x xs => simp [calculate_ema, emaAux_length]

/-- Recurrence of the smoothing helper: at every in-range position, the output
is the convex combination of the input there and the previous output (where
the output in front of position 0 is the seed `prev`). -/
theorem emaAux_getD (α : ℚ) (prev : ℚ) (xs : List ℚ) (i : ℕ)
    (hi : i < xs.length) :
    (emaAux α prev xs).getD i 0 =
      α * xs.getD i 0 + (1 - α) * ((prev :: emaAux α prev xs).getD i 0) := by
  induction xs generalizing prev i with
  | nil => simp at hi
  | cons x xs ih =>
    cases i with
    | zero => simp [emaAux]
    | succ j =>
      have hj : j < xs.length := by simpa using hi
      simpa [emaAux] using ih (α * x + (1 - α) * prev) j hj

theorem calculate_ema_getD_zero (series : List ℚ) (period : ℕ) :
    (calculate_ema series period).getD 0 0 = series.getD 0 0 := by
  cases series with
  | nil => rfl
  | cons x xs => rfl

theorem calculate_ema_getD_succ (series : List ℚ) (period : ℕ) (i : ℕ)
    (hi : i + 1 < series.length) :
    (calculate_ema series period).getD (i + 1) 0 =
      2 / ((period : ℚ) + 1) * series.getD (i + 1) 0 +
        (1 - 2 / ((period : ℚ) + 1)) * (calculate_ema series period).getD i 0 := by
  cases series with
  | nil => simp at hi
  | cons x xs =>
    have hx : i < xs.length := by simpa using hi
    have h := emaAux_getD (2 / ((period : ℚ) + 1)) x xs i hx
    simpa [calculate_ema] using h

/-- Convex combinations with coefficient in `[0,1]` stay between the two
endpoints. -/
theorem convex_combination_between (α a b : ℚ) (h0 : 0 ≤ α) (h1 : α ≤ 1) :
    min a b ≤ α * b + (1 - α) * a ∧ α * b + (1 - α) * a ≤ max a b := by
  rcases le_total a b with h | h
  · rw [min_eq_left h, max_eq_right h]
    constructor <;> nlinarith
  · rw [min_eq_right h, max_eq_left h]
    constructor <;> nlinarith

theorem ema_alpha_nonneg (period : ℕ) : 0 ≤ 2 / ((period : ℚ) + 1) := by
  positivity

theorem ema_alpha_le_one (period : ℕ) (hp : 1 ≤ period) :
    2 / ((period : ℚ) + 1) ≤ 1 := by
  rw [div_le_one (by positivity)]
  have : (1 : ℚ) ≤ (period : ℚ) := by exact_mod_cast hp
  linarith

/-- C4: `calculate_ema` obeys `avg[0] = price[0]` and
`avg[i] = α·price[i] + (1-α)·avg[i-1]` with `α = 2/(period+1)`, has output
length equal to input length, first value equal to the first input, and each
subsequent value lies between the previous average and the new input. -/
theorem calculate_ema_spec (series : List ℚ) (period : ℕ)
    (hs : series ≠ []) (hp : 1 ≤ period) :
    (calculate_ema series period).length = series.length ∧
    (calculate_ema series period).getD 0 0 = series.getD 0 0 ∧
    (∀ i, 1 ≤ i → i < series.length →
      (calculate_ema series period).getD i 0 =
        2 / ((period : ℚ) + 1) * series.getD i 0 +
          (1 - 2 / ((period : ℚ) + 1)) *
            (calculate_ema series period).getD (i - 1) 0) ∧
    (∀ i, 1 ≤ i → i < series.length →
      min ((calculate_ema series period).getD (i - 1) 0) (series.getD i 0) ≤
          (calculate_ema series period).getD i 0 ∧
        (calculate_ema series period).getD i 0 ≤
          max ((calculate_ema series period).getD (i - 1) 0)
            (series.getD i 0)) := by
  refine ⟨calculate_ema_length series period, calculate_ema_getD_zero series period, ?_, ?_⟩
  · intro i h1 hlen
    cases i with
    | zero => omega
    | succ j => simpa using calculate_ema_getD_succ series period j hlen
  · intro i h1 hlen
    cases i with
    | zero => omega
    | succ j =>
      have hrec := calculate_ema_getD_succ series period j hlen
      have hb := convex_combination_between (2 / ((period : ℚ) + 1))
        ((calculate_ema series period).getD j 0) (series.getD (j + 1) 0)
        (ema_alpha_nonneg period) (ema_alpha_le_one period hp)
      simp only [Nat.add_sub_cancel]
      rw [hrec]
      exact hb

/-- Closed witness for `calculate_ema_spec` at `series = [1, 3]`,
`period = 2`. -/
theorem calculate_ema_spec_witness :
    (calculate_ema [(1 : ℚ), 3] 2).length = ([(1 : ℚ), 3]).length ∧
    (calculate_ema [(1 : ℚ), 3] 2).getD 0 0 = ([(1 : ℚ), 3]).getD 0 0 ∧
    (∀ i, 1 ≤ i → i < ([(1 : ℚ), 3]).length →
      (calculate_ema [(1 : ℚ), 3] 2).getD i 0 =
        2 / ((2 : ℕ) + 1 : ℚ) * ([(1 : ℚ), 3]).getD i 0 +
          (1 - 2 / ((2 : ℕ) + 1 : ℚ)) *
            (calculate_ema [(1 : ℚ), 3] 2).getD (i - 1) 0) ∧
    (∀ i, 1 ≤ i → i < ([(1 : ℚ), 3]).length →
      min ((calculate_ema [(1 : ℚ), 3] 2).getD (i - 1) 0)
            (([(1 : ℚ), 3]).getD i 0) ≤
          (calculate_ema [(1 : ℚ), 3] 2).getD i 0 ∧
        (calculate_ema [(1 : ℚ), 3] 2).getD i 0 ≤
          max ((calculate_ema [(1 : ℚ), 3] 2).getD (i - 1) 0)
            (([(1 : ℚ), 3]).getD i 0)) :=
  calculate_ema_spec [(1 : ℚ), 3] 2 (by simp) (by norm_num)

/-- Embedding of `IndicatorCalculator.calculate_zlma`: compute the EMA, form
the lag correction `series + (series - ema)` elementwise, and smooth the
corrected series again. -/
def calculate_zlma (series : List ℚ) (period : ℕ) : List ℚ :=
  calculate_ema
    (List.zipWith (fun x e => x + (x - e)) series (calculate_ema series period))
    period

theorem zipWith_eq_range_map (f : ℚ → ℚ → ℚ) (xs ys : List ℚ)
    (h : ys.length = xs.length) :
    List.zipWith f xs ys =
      (List.range xs.length).map (fun i => f (xs.getD i 0) (ys.getD i 0)) := by
  induction xs generalizing ys with
  | nil => simp
  | cons x xs ih =>
    cases ys with
    | nil => simp at h
    | cons y ys =>
      have h' : ys.length = xs.length := by simpa using h
      simp only [List.zipWith_cons_cons, List.length_cons,
        List.range_succ_eq_map, List.map_cons, List.map_map]
      congr 1
      rw [ih ys h']
      exact List.map_congr_left fun a _ => rfl

/-- C5: `calculate_zlma` is exactly the double smoothing of the
spec: `movingAverage` of the pointwise correction
`price[i] + (price[i] - ema[i])` where `ema = movingAverage(series, period)`. -/
theorem calculate_zlma_spec (series : List ℚ) (period : ℕ) :
    calculate_zlma series period =
      calculate_ema
        ((List.range series.length).map fun i =>
          series.getD i 0 + (series.getD i 0 - (calculate_ema series period).getD i 0))
        period := by
  unfold calculate_zlma
  congr 1
  exact zipWith_eq_range_map _ series (calculate_ema series period)
    (calculate_ema_length series period)

/-- Per-bar crossover signal of `IndicatorCalculator.calculate_signals`.  The
pandas `shift(1)` comparison is false at bar 0 (comparison against NaN), which
the embedding renders as the `1 ≤ i` conjunct; the bearish mask is applied
after the bullish one, so it is tested first here (the two masks are disjoint
anyway). -/
def crossSignal (ema zlma : List ℚ) (i : ℕ) : Int :=
  if 1 ≤ i ∧ zlma.getD i 0 < ema.getD i 0 ∧ ema.getD (i - 1) 0 ≤ zlma.getD (i - 1) 0 then
    -1
  else if 1 ≤ i ∧ ema.getD i 0 < zlma.getD i 0 ∧ zlma.getD (i - 1) 0 ≤ ema.getD (i - 1) 0 then
    1
  else 0

/-- Embedding of `IndicatorCalculator.calculate_signals` over the `EMA` and
`ZLMA` columns. -/
def calculate_signals (ema zlma : List ℚ) : List Int :=
  (List.range zlma.length).map (crossSignal ema zlma)

theorem getD_map_range (f : ℕ → Int) (n i : ℕ) (hi : i < n) :
    ((List.range n).map f).getD i 0 = f i := by
  simp [List.getD_eq_getElem?_getD, List.getElem?_range hi]

/-- C3: at every in-range index, the computed signal is `1` exactly on a
bullish crossover (`zlma` moves strictly above `ema` at `i` having been at or
below it at `i-1`), `-1` exactly on the mirrored bearish crossover, `0` in all
other cases; index 0 never carries a signal, and exact equality
`zlma[i] = ema[i]` never fires a crossover at `i`. -/
theorem calculate_signals_spec (ema zlma : List ℚ)
    (hlen : ema.length = zlma.length) (i : ℕ) (hi : i < zlma.length) :
    ((calculate_signals ema zlma).getD i 0 = 1 ↔
      1 ≤ i ∧ ema.getD i 0 < zlma.getD i 0 ∧
        zlma.getD (i - 1) 0 ≤ ema.getD (i - 1) 0) ∧
    ((calculate_signals ema zlma).getD i 0 = -1 ↔
      1 ≤ i ∧ zlma.getD i 0 < ema.getD i 0 ∧
        ema.getD (i - 1) 0 ≤ zlma.getD (i - 1) 0) ∧
    (i = 0 → (calculate_signals ema zlma).getD i 0 = 0) ∧
    (zlma.getD i 0 = ema.getD i 0 → (calculate_signals ema zlma).getD i 0 = 0) ∧
    ((calculate_signals ema zlma).getD i 0 = 1 ∨
      (calculate_signals ema zlma).getD i 0 = -1 ∨
      (calculate_signals ema zlma).getD i 0 = 0) ∧
    (calculate_signals ema zlma).length = zlma.length := by
  have hg : (calculate_signals ema zlma).getD i 0 = crossSignal ema zlma i :=
    getD_map_range (crossSignal ema zlma) zlma.length i hi
  rw [hg]
  unfold crossSignal
  split_ifs with hbear hbull
  · refine ⟨?_, ?_, ?_, ?_, ?_, ?_⟩
    · constructor
      · intro habs; exact absurd habs (by decide)
      · rintro ⟨-, hlt, -⟩; exact absurd (lt_trans hbear.2.1 hlt) (lt_irrefl _)
    · exact ⟨fun _ => hbear, fun _ => rfl⟩
    · intro h0; omega
    · intro heq; rw [heq] at hbear; exact absurd hbear.2.1 (lt_irrefl _)
    · right; left; rfl
    · simp [calculate_signals]
  · refine ⟨?_, ?_, ?_, ?_, ?_, ?_⟩
    · exact ⟨fun _ => hbull, fun _ => rfl⟩
    · constructor
      · intro habs; exact absurd habs (by decide)
      · rintro ⟨-, hlt, -⟩; exact absurd (lt_trans hbull.2.1 hlt) (lt_irrefl _)
    · intro h0; omega
    · intro heq; rw [heq] at hbull; exact absurd hbull.2.1 (lt_irrefl _)
    · left; rfl
    · simp [calculate_signals]
  · refine ⟨?_, ?_, ?_, ?_, ?_, ?_⟩
    · constructor
      · intro habs; exact absurd habs (by decide)
      · intro hc; exact absurd hc hbull
    · constructor
      · intro habs; exact absurd habs (by decide)
      · intro hc; exact absurd hc hbear
    · intro _; rfl
    · intro _; rfl
    · right; right; rfl
    · simp [calculate_signals]

/-- Closed witness for `calculate_signals_spec` with `ema = [1, 2]`,
`zlma = [1, 3]` at index 1 (a bullish crossover fires there). -/
theorem calculate_signals_spec_witness :
    ((calculate_signals [(1 : ℚ), 2] [(1 : ℚ), 3]).getD 1 0 = 1 ↔
      1 ≤ 1 ∧ ([(1 : ℚ), 2]).getD 1 0 < ([(1 : ℚ), 3]).getD 1 0 ∧
        ([(1 : ℚ), 3]).getD (1 - 1) 0 ≤ ([(1 : ℚ), 2]).getD (1 - 1) 0) ∧
    ((calculate_signals [(1 : ℚ), 2] [(1 : ℚ), 3]).getD 1 0 = -1 ↔
      1 ≤ 1 ∧ ([(1 : ℚ), 3]).getD 1 0 < ([(1 : ℚ), 2]).getD 1 0 ∧
        ([(1 : ℚ), 2]).getD (1 - 1) 0 ≤ ([(1 : ℚ), 3]).getD (1 - 1) 0) ∧
    (1 = 0 → (calculate_signals [(1 : ℚ), 2] [(1 : ℚ), 3]).getD 1 0 = 0) ∧
    (([(1 : ℚ), 3]).getD 1 0 = ([(1 : ℚ), 2]).getD 1 0 →
      (calculate_signals [(1 : ℚ), 2] [(1 : ℚ), 3]).getD 1 0 = 0) ∧
    ((calculate_signals [(1 : ℚ), 2] [(1 : ℚ), 3]).getD 1 0 = 1 ∨
      (calculate_signals [(1 : ℚ), 2] [(1 : ℚ), 3]).getD 1 0 = -1 ∨
      (calculate_signals [(1 : ℚ), 2] [(1 : ℚ), 3]).getD 1 0 = 0) ∧
    (calculate_signals [(1 : ℚ), 2] [(1 : ℚ), 3]).length =
      ([(1 : ℚ), 3]).length :=
  calculate_signals_spec [(1 : ℚ), 2] [(1 : ℚ), 3] rfl 1 (by norm_num)

/-- One trade record of `Backtester._simulate_trading` (the Python dict with
keys `date_entry`, `price_entry`, `position`, `direction`, `date_exit`,
`price_exit`, `pnl`, `pnl_pct`, `capital`; dates are bar indices here). -/
structure Trade where
  dateEntry : ℕ
  priceEntry : ℚ
  position : ℚ
  direction : String
  dateExit : Option ℕ
  priceExit : Option ℚ
  pnl : Option ℚ
  pnlPct : Option ℚ
  capital : ℚ
  deriving DecidableEq, Repr

/-- Mutable loop state of `_simulate_trading`: `capital`, `position`,
`entry_price`, `trades`. -/
structure SimState where
  capital : ℚ
  position : ℚ
  entryPrice : ℚ
  trades : List Trade
  deriving DecidableEq, Repr

/-- Embedding of `trades[-1].update({...})`: rewrite the last list element. -/
def updateLast (f : Trade → Trade) : List Trade → List Trade
  | [] => []
  | [t] => [f t]
  | t :: ts => t :: updateLast f ts

/-- The exit-field update applied to the last trade when a position closes. -/
def closeTradeUpd (i : ℕ) (price pnl pnlPct capital : ℚ) (t : Trade) : Trade :=
  { t with dateExit := some i, priceExit := some price, pnl := some pnl,
           pnlPct := some pnlPct, capital := capital }

/-- One iteration of the `for i, row in trading_data.iterrows()` loop of
`_simulate_trading`: close on `position > 0 and signal == -1`, otherwise open
on `position == 0 and signal == 1`, otherwise leave the state unchanged. -/
def simStep (positionSizePct : ℚ) (st : SimState) (i : ℕ) (price : ℚ)
    (signal : Int) : SimState :=
  if 0 < st.position ∧ signal = -1 then
    let pnl := st.position * (price - st.entryPrice)
    let capital := st.capital + pnl
    { capital := capital, position := 0, entryPrice := 0,
      trades := updateLast
        (closeTradeUpd i price pnl (pnl / (st.position * st.entryPrice) * 100)
          capital) st.trades }
  else if st.position = 0 ∧ signal = 1 then
    let positionSize := st.capital * positionSizePct
    let units := positionSize / price
    { capital := st.capital, position := units, entryPrice := price,
      trades := st.trades ++
        [{ dateEntry := i, priceEntry := price, position := units,
           direction := "LONG", dateExit := none, priceExit := none,
           pnl := none, pnlPct := none, capital := st.capital }] }
  else st

/-- The whole bar loop, with `i` the index of the first remaining bar; each
bar is a pair (close price, signal). -/
def simRun (positionSizePct : ℚ) (st : SimState) (i : ℕ) :
    List (ℚ × Int) → SimState
  | [] => st
  | b :: bs => simRun positionSizePct (simStep positionSizePct st i b.1 b.2) (i + 1) bs

/-- Embedding of the `if position > 0:` block after the loop: force-close a
still-open position at the last bar close.  As in the source, the local
`position` and `entry_price` are not reset (the loop is over). -/
def forceClose (bars : List (ℚ × Int)) (st : SimState) : SimState :=
  if 0 < st.position then
    match bars.getLast? with
    | some b =>
      let pnl := st.position * (b.1 - st.entryPrice)
      let capital := st.capital + pnl
      { capital := capital, position := st.position, entryPrice := st.entryPrice,
        trades := updateLast
          (closeTradeUpd (bars.length - 1) b.1 pnl
            (pnl / (st.position * st.entryPrice) * 100) capital) st.trades }
    | none => st
  else st

/-- The initial simulation state: full starting capital, flat, no trades. -/
def simInit (initialCapital : ℚ) : SimState :=
  { capital := initialCapital, position := 0, entryPrice := 0, trades := [] }

/-- Run the loop from the initial state and apply the forced close. -/
def runSim (initialCapital positionSizePct : ℚ) (bars : List (ℚ × Int)) :
    SimState :=
  forceClose bars (simRun positionSizePct (simInit initialCapital) 0 bars)

/-- The statistics dict returned by `_simulate_trading`. -/
structure Stats where
  initialCapital : ℚ
  finalCapital : ℚ
  totalReturn : ℚ
  totalTrades : ℕ
  winningTrades : ℕ
  losingTrades : ℕ
  winRate : ℚ
  avgWin : ℚ
  avgLoss : ℚ
  maxDrawdown : ℚ
  trades : List Trade
  deriving DecidableEq, Repr

/-- The pandas mask `trades_df["pnl"] > 0` (false on a missing value). -/
def isWinning (t : Trade) : Bool :=
  match t.pnl with
  | some p => decide (0 < p)
  | none => false

/-- The pandas mask `trades_df["pnl"] < 0` (false on a missing value). -/
def isLosing (t : Trade) : Bool :=
  match t.pnl with
  | some p => decide (p < 0)
  | none => false

/-- Sum of `pnl` over the closed trades of a list. -/
def closedPnlSum (ts : List Trade) : ℚ :=
  (ts.filterMap Trade.pnl).sum

/-- The drawdown loop of `_calculate_max_drawdown`: carry the running peak and
emit `(peak - capital) / peak * 100` per trade. -/
def drawdownLoop (peak : ℚ) : List ℚ → List ℚ
  | [] => []
  | c :: cs => ((max peak c - c) / max peak c * 100) :: drawdownLoop (max peak c) cs

/-- Embedding of `Backtester._calculate_max_drawdown`, applied to the
post-trade capital column in chronological order. -/
def calculate_max_drawdown (initialCapital : ℚ) (capitals : List ℚ) : ℚ :=
  ((drawdownLoop initialCapital capitals).maximum?).getD 0

/-- Embedding of `Backtester._simulate_trading`: run the simulation and build
the statistics dict (zeroed statistics when no trade happened). -/
def simulate_trading (initialCapital positionSizePct : ℚ)
    (bars : List (ℚ × Int)) : Stats :=
  let final := runSim initialCapital positionSizePct bars
  let trades := final.trades
  if trades = [] then
    { initialCapital := initialCapital, finalCapital := final.capital,
      totalReturn := 0, totalTrades := 0, winningTrades := 0, losingTrades := 0,
      winRate := 0, avgWin := 0, avgLoss := 0, maxDrawdown := 0, trades := [] }
  else
    let winning := trades.filter isWinning
    let losing := trades.filter isLosing
    { initialCapital := initialCapital,
      finalCapital := final.capital,
      totalReturn := (final.capital / initialCapital - 1) * 100,
      totalTrades := trades.length,
      winningTrades := winning.length,
      losingTrades := losing.length,
      winRate := (winning.length : ℚ) / (trades.length : ℚ) * 100,
      avgWin := if winning = [] then 0
        else (winning.filterMap Trade.pnl).sum / (winning.length : ℚ),
      avgLoss := if losing = [] then 0
        else (losing.filterMap Trade.pnl).sum / (losing.length : ℚ),
      maxDrawdown := calculate_max_drawdown initialCapital (trades.map Trade.capital),
      trades := trades }

/-- C1: the simulation is a two-state FLAT/LONG machine starting FLAT
(`position = 0`).  While FLAT, signal `1` opens a trade with
`positionSize = capital * positionSizePct` and `units = positionSize / price`
and moves to LONG; any other signal leaves the state untouched.  While LONG
(`position > 0`), signal `-1` closes the open trade at the current close with
`pnl = units * (exitPrice - entryPrice)`, `capital += pnl`,
`pnlPct = pnl / (units * entryPrice) * 100`, returning to FLAT; any other
signal leaves the state untouched.  A position still open after the last bar
is force-closed at the final close with the same formulas. -/
theorem simulate_state_machine (positionSizePct : ℚ) (st : SimState) (i : ℕ)
    (price : ℚ) (signal : Int) (bars : List (ℚ × Int)) (lastBar : ℚ × Int)
    (c : ℚ) :
    (simInit c).position = 0 ∧
    (st.position = 0 → signal = 1 →
      simStep positionSizePct st i price signal =
        { capital := st.capital,
          position := st.capital * positionSizePct / price,
          entryPrice := price,
          trades := st.trades ++
            [{ dateEntry := i, priceEntry := price,
               position := st.capital * positionSizePct / price,
               direction := "LONG", dateExit := none, priceExit := none,
               pnl := none, pnlPct := none, capital := st.capital }] }) ∧
    (st.position = 0 → signal ≠ 1 →
      simStep positionSizePct st i price signal = st) ∧
    (0 < st.position → signal = -1 →
      simStep positionSizePct st i price signal =
        { capital := st.capital + st.position * (price - st.entryPrice),
          position := 0, entryPrice := 0,
          trades := updateLast
            (closeTradeUpd i price (st.position * (price - st.entryPrice))
              (st.position * (price - st.entryPrice) /
                  (st.position * st.entryPrice) * 100)
              (st.capital + st.position * (price - st.entryPrice)))
            st.trades }) ∧
    (0 < st.position → signal ≠ -1 →
      simStep positionSizePct st i price signal = st) ∧
    (0 < st.position → bars.getLast? = some lastBar →
      forceClose bars st =
        { capital := st.capital + st.position * (lastBar.1 - st.entryPrice),
          position := st.position, entryPrice := st.entryPrice,
          trades := updateLast
            (closeTradeUpd (bars.length - 1) lastBar.1
              (st.position * (lastBar.1 - st.entryPrice))
              (st.position * (lastBar.1 - st.entryPrice) /
                  (st.position * st.entryPrice) * 100)
              (st.capital + st.position * (lastBar.1 - st.entryPrice)))
            st.trades }) ∧
    (¬ 0 < st.position → forceClose bars st = st) := by
  refine ⟨rfl, ?_, ?_, ?_, ?_, ?_, ?_⟩
  · intro h1 h2
    simp [simStep, h1, h2]
  · intro h1 h2
    simp [simStep, h1, h2]
  · intro h1 h2
    simp [simStep, h1, h2]
  · intro h1 h2
    simp [simStep, h1.ne', h2]
  · intro h1 h2
    simp [forceClose, h1, h2]
  · intro h1
    simp [forceClose, h1]

/-- Closed witness for `simulate_state_machine`: with 10% sizing and capital
10000, a FLAT state opens on signal 1 at price 100 (10 units), ignores signal
-1; the resulting LONG state closes on signal -1 at price 110 with pnl 100,
ignores signal 1; and a LONG state left at the end of bars
`[(100, 1), (110, 0)]` force-closes at 110. -/
theorem simulate_state_machine_witness :
    simStep (1/10) ⟨10000, 0, 0, []⟩ 0 100 1 =
      { capital := (10000 : ℚ), position := 10,
        entryPrice := 100,
        trades := [{ dateEntry := 0, priceEntry := 100, position := 10,
                     direction := "LONG", dateExit := none, priceExit := none,
                     pnl := none, pnlPct := none, capital := 10000 }] } ∧
    simStep (1/10) ⟨10000, 0, 0, []⟩ 0 100 (-1) = ⟨10000, 0, 0, []⟩ ∧
    simStep (1/10)
      ⟨10000, 10, 100,
        [{ dateEntry := 0, priceEntry := 100, position := 10,
           direction := "LONG", dateExit := none, priceExit := none,
           pnl := none, pnlPct := none, capital := 10000 }]⟩ 1 110 (-1) =
      { capital := (10100 : ℚ), position := 0, entryPrice := 0,
        trades := [{ dateEntry := 0, priceEntry := 100, position := 10,
                     direction := "LONG", dateExit := some 1,
                     priceExit := some 110, pnl := some 100,
                     pnlPct := some 10, capital := 10100 }] } ∧
    simStep (1/10)
      ⟨10000, 10, 100,
        [{ dateEntry := 0, priceEntry := 100, position := 10,
           direction := "LONG", dateExit := none, priceExit := none,
           pnl := none, pnlPct := none, capital := 10000 }]⟩ 1 110 1 =
      ⟨10000, 10, 100,
        [{ dateEntry := 0, priceEntry := 100, position := 10,
           direction := "LONG", dateExit := none, priceExit := none,
           pnl := none, pnlPct := none, capital := 10000 }]⟩ ∧
    forceClose [(100, 1), (110, 0)]
      ⟨10000, 10, 100,
        [{ dateEntry := 0, priceEntry := 100, position := 10,
           direction := "LONG", dateExit := none, priceExit := none,
           pnl := none, pnlPct := none, capital := 10000 }]⟩ =
      { capital := (10100 : ℚ), position := 10, entryPrice := 100,
        trades := [{ dateEntry := 0, priceEntry := 100, position := 10,
                     direction := "LONG", dateExit := some 1,
                     priceExit := some 110, pnl := some 100,
                     pnlPct := some 10, capital := 10100 }] } := by
  refine ⟨?_, ?_, ?_, ?_, ?_⟩
  · have h := (simulate_state_machine (1/10) ⟨10000, 0, 0, []⟩ 0 100 1
      [] (0, 0) 0).2.1 rfl rfl
    rw [h]
    norm_num
  · exact (simulate_state_machine (1/10) ⟨10000, 0, 0, []⟩ 0 100 (-1)
      [] (0, 0) 0).2.2.1 rfl (by decide)
  · have h := (simulate_state_machine (1/10)
      ⟨10000, 10, 100,
        [{ dateEntry := 0, priceEntry := 100, position := 10,
           direction := "LONG", dateExit := none, priceExit := none,
           pnl := none, pnlPct := none, capital := 10000 }]⟩ 1 110 (-1)
      [] (0, 0) 0).2.2.2.1 (by norm_num) rfl
    rw [h]
    norm_num [updateLast, closeTradeUpd]
  · exact (simulate_state_machine (1/10)
      ⟨10000, 10, 100,
        [{ dateEntry := 0, priceEntry := 100, position := 10,
           direction := "LONG", dateExit := none, priceExit := none,
           pnl := none, pnlPct := none, capital := 10000 }]⟩ 1 110 1
      [] (0, 0) 0).2.2.2.2.1 (by norm_num) (by decide)
  · have h := (simulate_state_machine (1/10)
      ⟨10000, 10, 100,
        [{ dateEntry := 0, priceEntry := 100, position := 10,
           direction := "LONG", dateExit := none, priceExit := none,
           pnl := none, pnlPct := none, capital := 10000 }]⟩ 1 110 1
      [(100, 1), (110, 0)] (110, 0) 0).2.2.2.2.2.1 (by norm_num) rfl
    rw [h]
    norm_num [updateLast, closeTradeUpd]

theorem closedPnlSum_cons (t : Trade) (ts : List Trade) :
    closedPnlSum (t :: ts) = t.pnl.getD 0 + closedPnlSum ts := by
  cases h : t.pnl <;> simp [closedPnlSum, List.filterMap_cons, h]

theorem closedPnlSum_append (a b : List Trade) :
    closedPnlSum (a ++ b) = closedPnlSum a + closedPnlSum b := by
  simp [closedPnlSum, List.filterMap_append]

theorem updateLast_append (f : Trade → Trade) (ts : List Trade) (t : Trade) :
    updateLast f (ts ++ [t]) = ts ++ [f t] := by
  induction ts with
  | nil => rfl
  | cons a ts ih =>
    cases ts with
    | nil => rfl
    | cons b ts2 =>
      show a :: updateLast f ((b :: ts2) ++ [t]) = a :: ((b :: ts2) ++ [f t])
      rw [ih]

/-- A trade record is consistent once closed: if an exit price is recorded,
the recorded pnl is `position * (exit - entry)`. -/
def ClosedOK (t : Trade) : Prop :=
  ∀ p, t.priceExit = some p → t.pnl = some (t.position * (p - t.priceEntry))

/-- Loop invariant of the trading simulation: the running capital always
equals the initial capital plus the pnl of the closed trades, every recorded
exit is priced consistently, and an open position corresponds to a final
still-open trade recording the entry price and size of the position. -/
def SimInv (initialCapital : ℚ) (st : SimState) : Prop :=
  st.capital = initialCapital + closedPnlSum st.trades ∧
  (∀ u ∈ st.trades, ClosedOK u) ∧
  (0 < st.position →
    ∃ ts t, st.trades = ts ++ [t] ∧ t.pnl = none ∧ t.priceExit = none ∧
      t.priceEntry = st.entryPrice ∧ t.position = st.position)

theorem simInv_init (c : ℚ) : SimInv c (simInit c) := by
  refine ⟨by simp [simInit, closedPnlSum], by simp [simInit], ?_⟩
  intro h
  simp [simInit] at h

theorem simInv_step (c pct : ℚ) (st : SimState) (i : ℕ) (price : ℚ)
    (sig : Int) (h : SimInv c st) : SimInv c (simStep pct st i price sig) := by
  obtain ⟨hcap, hclosed, hopen⟩ := h
  unfold SimInv simStep
  split_ifs with h1 h2
  · obtain ⟨hpos, hsig⟩ := h1
    obtain ⟨ts, t, hts, hpnl, hpx, hpe, hppos⟩ := hopen hpos
    refine ⟨?_, ?_, ?_⟩
    · simp only [hts, updateLast_append]
      rw [closedPnlSum_append, closedPnlSum_cons]
      rw [hts, closedPnlSum_append, closedPnlSum_cons] at hcap
      simp only [closeTradeUpd, hpnl, Option.getD_none, Option.getD_some,
        closedPnlSum, List.filterMap_nil, List.sum_nil] at hcap ⊢
      linarith
    · intro u hu
      simp only [hts, updateLast_append] at hu
      rcases List.mem_append.mp hu with hu | hu
      · exact hclosed u (hts ▸ List.mem_append_left _ hu)
      · have hu' : u = closeTradeUpd i price (st.position * (price - st.entryPrice))
            (st.position * (price - st.entryPrice) / (st.position * st.entryPrice) * 100)
            (st.capital + st.position * (price - st.entryPrice)) t := by
          simpa using hu
        subst hu'
        intro p hp
        simp only [closeTradeUpd, Option.some.injEq] at hp
        subst hp
        simp [closeTradeUpd, hpe, hppos]
    · intro habs
      simp at habs
  · obtain ⟨hpos, hsig⟩ := h2
    refine ⟨?_, ?_, ?_⟩
    · simp only [closedPnlSum_append, closedPnlSum_cons]
      simp [closedPnlSum, hcap]
    · intro u hu
      rcases List.mem_append.mp hu with hu | hu
      · exact hclosed u hu
      · have hu' := List.mem_singleton.mp hu
        subst hu'
        intro p hp
        simp at hp
    · intro _
      exact ⟨st.trades, _, rfl, rfl, rfl, rfl, rfl⟩
  · exact ⟨hcap, hclosed, hopen⟩

/-- The part of the invariant that survives the forced close (the source does
not reset the loop variable `position` there, so the open-trade conjunct of
`SimInv` is lost while capital consistency is kept). -/
def SimInvFinal (initialCapital : ℚ) (st : SimState) : Prop :=
  st.capital = initialCapital + closedPnlSum st.trades ∧
  (∀ u ∈ st.trades, ClosedOK u)

theorem simInv_forceClose (c : ℚ) (bars : List (ℚ × Int)) (st : SimState)
    (h : SimInv c st) : SimInvFinal c (forceClose bars st) := by
  obtain ⟨hcap, hclosed, hopen⟩ := h
  unfold SimInvFinal forceClose
  split_ifs with h1
  · cases hlast : bars.getLast? with
    | none => exact ⟨hcap, hclosed⟩
    | some b =>
      dsimp only
      obtain ⟨ts, t, hts, hpnl, hpx, hpe, hppos⟩ := hopen h1
      refine ⟨?_, ?_⟩
      · simp only [hts, updateLast_append]
        rw [closedPnlSum_append, closedPnlSum_cons]
        rw [hts, closedPnlSum_append, closedPnlSum_cons] at hcap
        simp only [closeTradeUpd, hpnl, Option.getD_none, Option.getD_some,
          closedPnlSum, List.filterMap_nil, List.sum_nil] at hcap ⊢
        linarith
      · intro u hu
        simp only [hts, updateLast_append] at hu
        rcases List.mem_append.mp hu with hu | hu
        · exact hclosed u (hts ▸ List.mem_append_left _ hu)
        · have hu' : u = closeTradeUpd (bars.length - 1) b.1
              (st.position * (b.1 - st.entryPrice))
              (st.position * (b.1 - st.entryPrice) / (st.position * st.entryPrice) * 100)
              (st.capital + st.position * (b.1 - st.entryPrice)) t := by
            simpa using hu
          subst hu'
          intro p hp
          simp only [closeTradeUpd, Option.some.injEq] at hp
          subst hp
          simp [closeTradeUpd, hpe, hppos]
  · exact ⟨hcap, hclosed⟩

theorem simInv_run (c pct : ℚ) (bars : List (ℚ × Int)) (st : SimState) (i : ℕ)
    (h : SimInv c st) : SimInv c (simRun pct st i bars) := by
  induction bars generalizing st i with
  | nil => exact h
  | cons b bs ih => exact ih _ _ (simInv_step c pct st i b.1 b.2 h)

theorem simInv_runSim (c pct : ℚ) (bars : List (ℚ × Int)) :
    SimInvFinal c (runSim c pct bars) :=
  simInv_forceClose c bars _ (simInv_run c pct bars _ 0 (simInv_init c))

theorem simRun_all_zero (c pct : ℚ) (bars : List (ℚ × Int)) (i : ℕ)
    (h : ∀ b ∈ bars, b.2 = 0) : simRun pct (simInit c) i bars = simInit c := by
  induction bars generalizing i with
  | nil => rfl
  | cons b bs ih =>
    have hb : b.2 = 0 := h b (List.mem_cons_self b bs)
    have hstep : simStep pct (simInit c) i b.1 b.2 = simInit c := by
      simp [simStep, simInit, hb]
    show simRun pct (simStep pct (simInit c) i b.1 b.2) (i + 1) bs = simInit c
    rw [hstep]
    exact ih (i + 1) (fun x hx => h x (List.mem_cons_of_mem _ hx))

theorem runSim_all_zero (c pct : ℚ) (bars : List (ℚ × Int))
    (h : ∀ b ∈ bars, b.2 = 0) : runSim c pct bars = simInit c := by
  unfold runSim
  rw [simRun_all_zero c pct bars 0 h]
  simp [forceClose, simInit]

/-- C2: every completed run satisfies
`final_capital = initial_capital + sum of pnl over closed trades` and
`total_return = (final_capital / initial_capital - 1) * 100`; an all-zero
signal series yields no trades and leaves the capital unchanged. -/
theorem simulate_trading_proj (c pct : ℚ) (bars : List (ℚ × Int)) :
    (simulate_trading c pct bars).initialCapital = c ∧
    (simulate_trading c pct bars).finalCapital = (runSim c pct bars).capital ∧
    (simulate_trading c pct bars).trades = (runSim c pct bars).trades ∧
    (simulate_trading c pct bars).totalTrades =
      (runSim c pct bars).trades.length ∧
    (simulate_trading c pct bars).winningTrades =
      ((runSim c pct bars).trades.filter isWinning).length ∧
    (simulate_trading c pct bars).losingTrades =
      ((runSim c pct bars).trades.filter isLosing).length := by
  unfold simulate_trading
  dsimp only
  by_cases ht : (runSim c pct bars).trades = []
  · rw [if_pos ht]
    simp [ht]
  · rw [if_neg ht]
    exact ⟨rfl, rfl, rfl, rfl, rfl, rfl⟩

theorem simulate_trading_totalReturn (c pct : ℚ) (bars : List (ℚ × Int)) :
    (simulate_trading c pct bars).totalReturn =
      if (runSim c pct bars).trades = [] then 0
      else ((runSim c pct bars).capital / c - 1) * 100 := by
  unfold simulate_trading
  dsimp only
  by_cases ht : (runSim c pct bars).trades = []
  · rw [if_pos ht, if_pos ht]
  · rw [if_neg ht, if_neg ht]

theorem backtest_capital_invariant (c pct : ℚ) (bars : List (ℚ × Int))
    (hc : c ≠ 0) :
    (simulate_trading c pct bars).finalCapital =
      (simulate_trading c pct bars).initialCapital +
        closedPnlSum (simulate_trading c pct bars).trades ∧
    (simulate_trading c pct bars).totalReturn =
      ((simulate_trading c pct bars).finalCapital /
          (simulate_trading c pct bars).initialCapital - 1) * 100 ∧
    ((∀ b ∈ bars, b.2 = 0) →
      (simulate_trading c pct bars).totalTrades = 0 ∧
      (simulate_trading c pct bars).finalCapital = c) := by
  obtain ⟨hini, hfin, htr, htot, hwin, hlos⟩ := simulate_trading_proj c pct bars
  have hinv := simInv_runSim c pct bars
  refine ⟨?_, ?_, ?_⟩
  · rw [hfin, hini, htr]
    exact hinv.1
  · rw [simulate_trading_totalReturn, hfin, hini]
    by_cases ht : (runSim c pct bars).trades = []
    · rw [if_pos ht]
      have hcapc : (runSim c pct bars).capital = c := by
        have h1 := hinv.1
        rw [ht] at h1
        simpa [closedPnlSum] using h1
      rw [hcapc, div_self hc]
      ring
    · rw [if_neg ht]
  · intro hz
    have hrs := runSim_all_zero c pct bars hz
    constructor
    · rw [htot, hrs]
      rfl
    · rw [hfin, hrs]
      rfl

/-- Closed witness for `backtest_capital_invariant` on a one-bar, zero-signal
series with capital 10000. -/
theorem backtest_capital_invariant_witness :
    (simulate_trading 10000 (1/10) [((100 : ℚ), (0 : Int))]).finalCapital =
      (simulate_trading 10000 (1/10) [((100 : ℚ), (0 : Int))]).initialCapital +
        closedPnlSum (simulate_trading 10000 (1/10) [((100 : ℚ), (0 : Int))]).trades ∧
    (simulate_trading 10000 (1/10) [((100 : ℚ), (0 : Int))]).totalReturn =
      ((simulate_trading 10000 (1/10) [((100 : ℚ), (0 : Int))]).finalCapital /
          (simulate_trading 10000 (1/10) [((100 : ℚ), (0 : Int))]).initialCapital - 1) * 100 ∧
    ((∀ b ∈ [((100 : ℚ), (0 : Int))], b.2 = 0) →
      (simulate_trading 10000 (1/10) [((100 : ℚ), (0 : Int))]).totalTrades = 0 ∧
      (simulate_trading 10000 (1/10) [((100 : ℚ), (0 : Int))]).finalCapital = 10000) :=
  backtest_capital_invariant 10000 (1/10) [((100 : ℚ), (0 : Int))] (by norm_num)

theorem isWinning_isLosing_false (t : Trade) :
    ¬ (isWinning t = true ∧ isLosing t = true) := by
  rintro ⟨h1, h2⟩
  cases h : t.pnl with
  | none => simp [isWinning, h] at h1
  | some p =>
    simp [isWinning, h] at h1
    simp [isLosing, h] at h2
    linarith

theorem filter_win_lose_length_le (l : List Trade) :
    (l.filter isWinning).length + (l.filter isLosing).length ≤ l.length := by
  induction l with
  | nil => simp
  | cons a l ih =>
    by_cases hw : isWinning a = true
    · have hl : ¬ isLosing a = true := fun h => isWinning_isLosing_false a ⟨hw, h⟩
      simp [List.filter_cons, hw, hl]
      omega
    · by_cases hl : isLosing a = true <;>
        simp [List.filter_cons, hw, hl] <;> omega

theorem filter_win_lose_length_lt (l : List Trade) (t : Trade) (ht : t ∈ l)
    (hw : ¬ isWinning t = true) (hl : ¬ isLosing t = true) :
    (l.filter isWinning).length + (l.filter isLosing).length < l.length := by
  induction l with
  | nil => simp at ht
  | cons a l ih =>
    rcases List.mem_cons.mp ht with rfl | hmem
    · simp [List.filter_cons, hw, hl]
      have := filter_win_lose_length_le l
      omega
    · have hrec := ih hmem
      by_cases haw : isWinning a = true
      · have hal : ¬ isLosing a = true := fun h => isWinning_isLosing_false a ⟨haw, h⟩
        simp [List.filter_cons, haw, hal]
        omega
      · by_cases hal : isLosing a = true <;>
          simp [List.filter_cons, haw, hal] <;> omega

/-- C10: `winning_trades` counts exactly the trades with `pnl > 0`,
`losing_trades` exactly those with `pnl < 0`, so their sum never exceeds
`total_trades`, strictly whenever some trade exits at its entry price (such a
trade has pnl 0 and is counted by neither side). -/
theorem win_loss_partition (c pct : ℚ) (bars : List (ℚ × Int)) :
    (simulate_trading c pct bars).winningTrades =
      ((simulate_trading c pct bars).trades.filter isWinning).length ∧
    (simulate_trading c pct bars).losingTrades =
      ((simulate_trading c pct bars).trades.filter isLosing).length ∧
    (simulate_trading c pct bars).winningTrades +
        (simulate_trading c pct bars).losingTrades ≤
      (simulate_trading c pct bars).totalTrades ∧
    ((∃ t ∈ (simulate_trading c pct bars).trades,
        t.priceExit = some t.priceEntry) →
      (simulate_trading c pct bars).winningTrades +
          (simulate_trading c pct bars).losingTrades <
        (simulate_trading c pct bars).totalTrades) := by
  obtain ⟨hini, hfin, htr, htot, hwin, hlos⟩ := simulate_trading_proj c pct bars
  have hinv := simInv_runSim c pct bars
  refine ⟨?_, ?_, ?_, ?_⟩
  · rw [hwin, htr]
  · rw [hlos, htr]
  · rw [hwin, hlos, htot]
    exact filter_win_lose_length_le _
  · rintro ⟨t, htm, hpe⟩
    rw [htr] at htm
    have hok := hinv.2 t htm
    have hpnl : t.pnl = some 0 := by
      have := hok t.priceEntry hpe
      simpa using this
    have hw : ¬ isWinning t = true := by simp [isWinning, hpnl]
    have hl : ¬ isLosing t = true := by simp [isLosing, hpnl]
    rw [hwin, hlos, htot]
    exact filter_win_lose_length_lt _ t htm hw hl

/-- Closed witness for `win_loss_partition`: a trade that opens and closes at
price 1 has pnl 0, and the winning/losing counts sum strictly below the trade
count. -/
theorem win_loss_partition_witness :
    (∃ t ∈ (simulate_trading 1 1 [((1 : ℚ), (1 : Int)), (1, -1)]).trades,
        t.priceExit = some t.priceEntry) ∧
    (simulate_trading 1 1 [((1 : ℚ), (1 : Int)), (1, -1)]).winningTrades +
        (simulate_trading 1 1 [((1 : ℚ), (1 : Int)), (1, -1)]).losingTrades <
      (simulate_trading 1 1 [((1 : ℚ), (1 : Int)), (1, -1)]).totalTrades := by
  have hcomp : (simulate_trading 1 1 [((1 : ℚ), (1 : Int)), (1, -1)]).trades =
      [{ dateEntry := 0, priceEntry := 1, position := 1, direction := "LONG",
         dateExit := some 1, priceExit := some 1, pnl := some 0,
         pnlPct := some 0, capital := 1 }] := by
    norm_num [simulate_trading, runSim, simRun, simStep, simInit, forceClose,
      updateLast, closeTradeUpd]
  have hex : ∃ t ∈ (simulate_trading 1 1 [((1 : ℚ), (1 : Int)), (1, -1)]).trades,
      t.priceExit = some t.priceEntry := by
    rw [hcomp]
    exact ⟨_, List.mem_singleton_self _, rfl⟩
  exact ⟨hex, (win_loss_partition 1 1 [((1 : ℚ), (1 : Int)), (1, -1)]).2.2.2 hex⟩

theorem drawdownLoop_eq_running (peak : ℚ) (cs : List ℚ) :
    drawdownLoop peak cs =
      (List.range cs.length).map fun i =>
        ((cs.take (i + 1)).foldl max peak - cs.getD i 0) /
          (cs.take (i + 1)).foldl max peak * 100 := by
  induction cs generalizing peak with
  | nil => rfl
  | cons c cs ih =>
    simp only [drawdownLoop, List.length_cons, List.range_succ_eq_map,
      List.map_cons, List.map_map]
    congr 1
    rw [ih (max peak c)]
    exact List.map_congr_left fun a _ => rfl

/-- C6: `_calculate_max_drawdown` returns the maximum over all trades of
`(peak - capitalAfterTrade) / peak * 100` where `peak` is the running maximum
of the capital snapshots seeded with the initial capital, `0` on an empty
trade list; the example `[10000, 9000, 9500]` from capital 10000 gives 10. -/
theorem calculate_max_drawdown_spec (initialCapital : ℚ) (capitals : List ℚ) :
    calculate_max_drawdown initialCapital capitals =
      (((List.range capitals.length).map fun i =>
          ((capitals.take (i + 1)).foldl max initialCapital - capitals.getD i 0) /
            (capitals.take (i + 1)).foldl max initialCapital * 100).maximum?).getD 0 ∧
    calculate_max_drawdown initialCapital [] = 0 ∧
    calculate_max_drawdown 10000 [10000, 9000, 9500] = 10 := by
  refine ⟨?_, rfl, ?_⟩
  · unfold calculate_max_drawdown
    rw [drawdownLoop_eq_running]
  · norm_num [calculate_max_drawdown, drawdownLoop, List.maximum?,
      List.foldl, max_def]

/-- The `signal_info` dict handed to `SignalDetector._save_signal` (the keys
it reads: `signal`, `date`, `price`). -/
structure SignalInfo where
  signal : Int
  date : String
  price : ℚ
  deriving DecidableEq, Repr

/-- One row of the persisted signal history (`signals_history` columns). -/
structure SignalRecord where
  symbol : String
  timeframe : String
  date : String
  signal : Int
  price : ℚ
  currentPrice : ℚ
  timestamp : String
  deriving DecidableEq, Repr

/-- The dedup filter of `_save_signal`: same symbol, timeframe, date and
signal value. -/
def matchesKey (symbol timeframe date : String) (sig : Int)
    (r : SignalRecord) : Bool :=
  decide (r.symbol = symbol ∧ r.timeframe = timeframe ∧ r.date = date ∧
    r.signal = sig)

/-- Embedding of `SignalDetector._save_signal`: drop zero signals, drop
records whose dedup key is already present, otherwise append the new row. -/
def save_signal (hist : List SignalRecord) (symbol timeframe : String)
    (info : SignalInfo) (currentPrice : ℚ) (timestamp : String) :
    List SignalRecord :=
  if info.signal = 0 then hist
  else if hist.filter (matchesKey symbol timeframe info.date info.signal) ≠ [] then
    hist
  else
    hist ++ [{ symbol := symbol, timeframe := timeframe, date := info.date,
               signal := info.signal, price := info.price,
               currentPrice := currentPrice, timestamp := timestamp }]

/-- Number of history rows matching a dedup key. -/
def countKey (symbol timeframe date : String) (sig : Int)
    (hist : List SignalRecord) : ℕ :=
  (hist.filter (matchesKey symbol timeframe date sig)).length

theorem matchesKey_new (symbol timeframe : String) (info : SignalInfo)
    (cp : ℚ) (ts : String) :
    matchesKey symbol timeframe info.date info.signal
      { symbol := symbol, timeframe := timeframe, date := info.date,
        signal := info.signal, price := info.price, currentPrice := cp,
        timestamp := ts } = true := by
  simp [matchesKey]

/-- C7: persisting a detected last-signal is idempotent.  A zero signal is
never persisted; for a non-zero signal, saving the same
(symbol, timeframe, date, signal) key twice equals saving it once, one save
adds at most one matching row, and from a state with no matching row a double
save leaves at most one matching row. -/
theorem save_signal_idempotent (hist : List SignalRecord)
    (symbol timeframe : String) (info : SignalInfo) (cp cp' : ℚ)
    (ts ts' : String) :
    (info.signal = 0 → save_signal hist symbol timeframe info cp ts = hist) ∧
    (info.signal ≠ 0 →
      save_signal (save_signal hist symbol timeframe info cp ts)
          symbol timeframe info cp' ts' =
        save_signal hist symbol timeframe info cp ts ∧
      countKey symbol timeframe info.date info.signal
          (save_signal hist symbol timeframe info cp ts) ≤
        countKey symbol timeframe info.date info.signal hist + 1 ∧
      (countKey symbol timeframe info.date info.signal hist = 0 →
        countKey symbol timeframe info.date info.signal
            (save_signal (save_signal hist symbol timeframe info cp ts)
              symbol timeframe info cp' ts') ≤ 1)) := by
  constructor
  · intro h0
    simp [save_signal, h0]
  · intro hnz
    by_cases hex :
        hist.filter (matchesKey symbol timeframe info.date info.signal) = []
    · set rec : SignalRecord :=
        { symbol := symbol, timeframe := timeframe, date := info.date,
          signal := info.signal, price := info.price, currentPrice := cp,
          timestamp := ts } with hrec
      have hsave : save_signal hist symbol timeframe info cp ts =
          hist ++ [rec] := by
        unfold save_signal
        rw [if_neg hnz, if_neg (by simp [hex])]
      have hfr : (hist ++ [rec]).filter
          (matchesKey symbol timeframe info.date info.signal) = [rec] := by
        rw [List.filter_append, hex]
        simp [hrec, matchesKey_new]
      have hsecond : save_signal (hist ++ [rec]) symbol timeframe info cp' ts' =
          hist ++ [rec] := by
        unfold save_signal
        rw [if_neg hnz, if_pos (by rw [hfr]; exact List.cons_ne_nil _ _)]
      refine ⟨?_, ?_, ?_⟩
      · rw [hsave, hsecond]
      · rw [hsave, countKey, countKey, hfr, hex]
        simp
      · intro _
        rw [hsave, hsecond, countKey, hfr]
        simp
    · have hsave : save_signal hist symbol timeframe info cp ts = hist := by
        simp only [save_signal, if_neg hnz]
        rw [if_pos hex]
      have hsave' : save_signal hist symbol timeframe info cp' ts' = hist := by
        simp only [save_signal, if_neg hnz]
        rw [if_pos hex]
      refine ⟨?_, ?_, ?_⟩
      · rw [hsave, hsave']
      · rw [hsave]
        omega
      · intro hcount
        exfalso
        apply hex
        have : (hist.filter
            (matchesKey symbol timeframe info.date info.signal)).length = 0 :=
          hcount
        exact List.length_eq_zero.mp this

/-- Closed witness for `save_signal_idempotent`: a zero signal on an empty
history is dropped, and a bullish signal saved twice from an empty history
yields a single matching row. -/
theorem save_signal_idempotent_witness :
    save_signal [] "BTC" "1d" { signal := 0, date := "2024-01-02", price := 5 }
        5 "t0" = [] ∧
    (save_signal (save_signal [] "BTC" "1d"
          { signal := 1, date := "2024-01-02", price := 5 } 5 "t1")
        "BTC" "1d" { signal := 1, date := "2024-01-02", price := 5 } 6 "t2" =
      save_signal [] "BTC" "1d"
        { signal := 1, date := "2024-01-02", price := 5 } 5 "t1" ∧
    countKey "BTC" "1d" "2024-01-02" 1
        (save_signal [] "BTC" "1d"
          { signal := 1, date := "2024-01-02", price := 5 } 5 "t1") ≤
      countKey "BTC" "1d" "2024-01-02" 1 [] + 1 ∧
    (countKey "BTC" "1d" "2024-01-02" 1 [] = 0 →
      countKey "BTC" "1d" "2024-01-02" 1
          (save_signal (save_signal [] "BTC" "1d"
              { signal := 1, date := "2024-01-02", price := 5 } 5 "t1")
            "BTC" "1d" { signal := 1, date := "2024-01-02", price := 5 }
            6 "t2") ≤ 1)) :=
  ⟨(save_signal_idempotent [] "BTC" "1d"
      { signal := 0, date := "2024-01-02", price := 5 } 5 5 "t0" "t0").1 rfl,
   (save_signal_idempotent [] "BTC" "1d"
      { signal := 1, date := "2024-01-02", price := 5 } 5 6 "t1" "t2").2
     (by decide)⟩

/-- The DataFrame handed to `IndicatorCalculator.add_indicators`: the five
required OHLCV price columns (each possibly absent) and the four derived
columns the function may add. -/
structure PriceFrame where
  openCol : Option (List ℚ)
  highCol : Option (List ℚ)
  lowCol : Option (List ℚ)
  closeCol : Option (List ℚ)
  volumeCol : Option (List ℚ)
  ema : Option (List ℚ)
  zlma : Option (List ℚ)
  signal : Option (List Int)
  trend : Option (List Int)
  deriving DecidableEq, Repr

/-- Embedding of `IndicatorCalculator.add_indicators`: when all five required
columns are present, add the EMA, ZLMA, Signal and Trend columns computed from
the close prices; when any is missing, return the input unchanged (the
missing-field error is recoverable, signalled only by the absence of the
derived columns). -/
def add_indicators (emaPeriod zlmaPeriod : ℕ) (data : PriceFrame) :
    PriceFrame :=
  match data.openCol, data.highCol, data.lowCol, data.closeCol,
      data.volumeCol with
  | some _, some _, some _, some close, some _ =>
    let ema := calculate_ema close emaPeriod
    let zlma := calculate_zlma close zlmaPeriod
    { data with ema := some ema, zlma := some zlma,
                signal := some (calculate_signals ema zlma),
                trend := some (List.zipWith
                  (fun z e =>
                    if e < z then (1 : Int) else if z < e then -1 else 0)
                  zlma ema) }
  | _, _, _, _, _ => data

/-- C8: on a DataFrame missing at least one required OHLCV column,
`add_indicators` returns its input unchanged — no derived column is added and
nothing is raised (the embedding is total). -/
theorem add_indicators_missing_column (emaPeriod zlmaPeriod : ℕ)
    (data : PriceFrame)
    (h : data.openCol = none ∨ data.highCol = none ∨ data.lowCol = none ∨
      data.closeCol = none ∨ data.volumeCol = none) :
    add_indicators emaPeriod zlmaPeriod data = data := by
  cases ho : data.openCol <;> cases hh : data.highCol <;>
    cases hl : data.lowCol <;> cases hc : data.closeCol <;>
    cases hv : data.volumeCol <;>
    simp_all [add_indicators]

/-- Closed witness for `add_indicators_missing_column`: a frame without an
Open column passes through unchanged. -/
theorem add_indicators_missing_column_witness :
    add_indicators 15 15
      { openCol := none, highCol := some [], lowCol := some [],
        closeCol := some [], volumeCol := some [], ema := none, zlma := none,
        signal := none, trend := none } =
      { openCol := none, highCol := some [], lowCol := some [],
        closeCol := some [], volumeCol := some [], ema := none, zlma := none,
        signal := none, trend := none } :=
  add_indicators_missing_column 15 15
    { openCol := none, highCol := some [], lowCol := some [],
      closeCol := some [], volumeCol := some [], ema := none, zlma := none,
      signal := none, trend := none } (Or.inl rfl)

/-- One row of the indicator DataFrame as consumed by `get_all_signals`. -/
structure SignalRow where
  close : ℚ
  signal : Int
  deriving DecidableEq, Repr

/-- The DataFrame handed to `get_all_signals`: its rows plus whether the
`Signal` column exists at all. -/
structure SignalFrame where
  hasSignalCol : Bool
  rows : List SignalRow
  deriving DecidableEq, Repr

/-- Embedding of `IndicatorCalculator.get_all_signals`: empty result on an
empty frame or a frame without a Signal column; otherwise the rows with
non-zero signal, each tagged with the `SignalType` label the source assigns
(default `Baissier`, overridden to `Haussier` where the signal is 1). -/
def get_all_signals (data : SignalFrame) : List (SignalRow × String) :=
  if data.rows = [] ∨ data.hasSignalCol = false then []
  else
    (data.rows.filter (fun r => r.signal ≠ 0)).map
      (fun r => (r, if r.signal = 1 then "Haussier" else "Baissier"))

/-- C9 counterexample: a bar carrying `Signal = 1` is returned tagged
`"Haussier"`, not `"Bullish"` as the claim states; no returned pair carries
the label `"Bullish"`. -/
theorem get_all_signals_label_counterexample :
    get_all_signals ⟨true, [⟨100, 1⟩]⟩ = [(⟨100, 1⟩, "Haussier")] ∧
    "Haussier" ≠ "Bullish" ∧
    ¬ ∃ pr ∈ get_all_signals ⟨true, [⟨100, 1⟩]⟩, pr.2 = "Bullish" := by
  refine ⟨?_, by decide, ?_⟩
  · simp [get_all_signals]
  · rintro ⟨pr, hm, hlab⟩
    simp [get_all_signals] at hm
    rw [hm] at hlab
    exact absurd hlab (by decide)

/-- C9 (amended): `get_all_signals` returns an empty result on an empty frame
or a frame without a Signal column; otherwise exactly the rows with non-zero
Signal, each tagged `"Haussier"` (bullish) when Signal = 1 and `"Baissier"`
(bearish) otherwise. -/
theorem get_all_signals_spec (data : SignalFrame) :
    (data.rows = [] ∨ data.hasSignalCol = false → get_all_signals data = []) ∧
    (data.hasSignalCol = true →
      (get_all_signals data).map Prod.fst =
        data.rows.filter (fun r => r.signal ≠ 0)) ∧
    (∀ pr ∈ get_all_signals data,
      pr.1.signal ≠ 0 ∧
      (pr.1.signal = 1 → pr.2 = "Haussier") ∧
      (pr.1.signal ≠ 1 → pr.2 = "Baissier")) := by
  refine ⟨?_, ?_, ?_⟩
  · intro h
    rw [get_all_signals, if_pos h]
  · intro hcol
    by_cases hrows : data.rows = []
    · rw [get_all_signals, if_pos (Or.inl hrows), hrows]
      simp
    · have hcond : ¬ (data.rows = [] ∨ data.hasSignalCol = false) := by
        simp [hrows, hcol]
      rw [get_all_signals, if_neg hcond, List.map_map]
      exact (List.map_congr_left fun a _ => rfl).trans (List.map_id _)
  · intro pr hpr
    rw [get_all_signals] at hpr
    split_ifs at hpr with hcond
    · simp at hpr
    · obtain ⟨r, hr, hpr⟩ := List.mem_map.mp hpr
      have hsig : r.signal ≠ 0 := by
        have := List.mem_filter.mp hr
        simpa using this.2
      subst hpr
      refine ⟨hsig, ?_, ?_⟩
      · intro h1
        have h1' : r.signal = 1 := h1
        show (if r.signal = 1 then "Haussier" else "Baissier") = "Haussier"
        rw [if_pos h1']
      · intro h1
        have h1' : r.signal ≠ 1 := h1
        show (if r.signal = 1 then "Haussier" else "Baissier") = "Baissier"
        rw [if_neg h1']

/-- Closed witness for `get_all_signals_spec`: a frame without the Signal
column yields nothing; a three-row frame yields exactly its two signal rows,
labelled `Haussier` and `Baissier`. -/
theorem get_all_signals_spec_witness :
    get_all_signals ⟨false, [⟨100, 1⟩]⟩ = [] ∧
    (get_all_signals ⟨true, [⟨100, 1⟩, ⟨50, 0⟩, ⟨60, -1⟩]⟩).map Prod.fst =
      ([⟨100, 1⟩, ⟨50, 0⟩, ⟨60, -1⟩] : List SignalRow).filter
        (fun r => r.signal ≠ 0) ∧
    (∀ pr ∈ get_all_signals ⟨true, [⟨100, 1⟩, ⟨50, 0⟩, ⟨60, -1⟩]⟩,
      pr.1.signal ≠ 0 ∧
      (pr.1.signal = 1 → pr.2 = "Haussier") ∧
      (pr.1.signal ≠ 1 → pr.2 = "Baissier")) :=
  ⟨(get_all_signals_spec ⟨false, [⟨100, 1⟩]⟩).1 (Or.inr rfl),
   (get_all_signals_spec ⟨true, [⟨100, 1⟩, ⟨50, 0⟩, ⟨60, -1⟩]⟩).2.1 rfl,
   (get_all_signals_spec ⟨true, [⟨100, 1⟩, ⟨50, 0⟩, ⟨60, -1⟩]⟩).2.2⟩

end TvBin
